import Mathlib

/-!
Shallow embedding of the `AsyncLimiter` leaky-bucket rate limiter
(`src/aiolimiter/leakybucket.py`).

Modelling choices: Python floats become rationals; the event-loop clock
`self._loop.time()` becomes an explicit `now` argument (constant within one
synchronous pass); an `asyncio.Future` is represented by a status field on its
waiter entry plus the identifier of the loop it belongs to; the armed
`asyncio.TimerHandle` is represented by its deadline (`Option`, since at most
one handle field exists).  The `heapq` min-heap of `(amount, order, future)`
tuples is modelled as a list kept sorted by the Python tuple order, so the
heap minimum `heap[0]` is the list head and `heappop` is `tail`.
-/

namespace Aiolimiter

/-- Status of the `asyncio.Future` of a waiter.  `fut.done()` in the source is
true exactly when the status is not `pending`. -/
inductive FutStatus where
  | pending
  | granted
  | cancelled
  deriving DecidableEq, Repr

/-- One entry of the `_waiters` heap: the tuple `(amount requested, order,
future)`, the future represented by its status and by the id of the event loop
it belongs to (`fut.get_loop()`). -/
structure Waiter where
  amount : ℚ
  seq : ℕ
  status : FutStatus
  loopId : ℕ
  deriving DecidableEq, Repr

/-- Python's lexicographic comparison of the `(amount, order, future)` tuples
stored in the heap: `amount` is compared first, ties fall back to the counter
`order`; the future is never reached because `order` values are unique. -/
def wLE (a b : Waiter) : Prop :=
  a.amount < b.amount ∨ (a.amount = b.amount ∧ a.seq ≤ b.seq)

instance : DecidableRel wLE := fun a b => by
  unfold wLE; exact inferInstance

instance : IsTotal Waiter wLE where
  total a b := by
    unfold wLE
    rcases lt_trichotomy a.amount b.amount with h | h | h
    · exact Or.inl (Or.inl h)
    · rcases Nat.le_total a.seq b.seq with hs | hs
      · exact Or.inl (Or.inr ⟨h, hs⟩)
      · exact Or.inr (Or.inr ⟨h.symm, hs⟩)
    · exact Or.inr (Or.inl h)

instance : IsTrans Waiter wLE where
  trans a b c hab hbc := by
    unfold wLE at *
    rcases hab with h1 | ⟨h1, h1s⟩ <;> rcases hbc with h2 | ⟨h2, h2s⟩
    · exact Or.inl (h1.trans h2)
    · exact Or.inl (h2 ▸ h1)
    · exact Or.inl (h1 ▸ h2)
    · exact Or.inr ⟨h1.trans h2, h1s.trans h2s⟩

/-- `heappush(self._waiters, (amount, order, fut))` on the sorted-list model of
the heap: ordered insertion by the tuple order. -/
def heappush (l : List Waiter) (w : Waiter) : List Waiter :=
  List.orderedInsert wLE w l

/-- The mutable state of one `AsyncLimiter` instance (its `__slots__`). -/
structure LimiterState where
  maxRate : ℚ
  timePeriod : ℚ
  ratePerSec : ℚ
  level : ℚ
  lastCheck : ℚ
  waiters : List Waiter
  nextCount : ℕ
  wakerHandle : Option ℚ
  eventLoop : Option ℕ
  deriving DecidableEq, Repr

/-- `AsyncLimiter.__init__(max_rate, time_period)`. -/
def mkLimiter (maxRate : ℚ) (timePeriod : ℚ) : LimiterState :=
  { maxRate := maxRate
    timePeriod := timePeriod
    ratePerSec := maxRate / timePeriod
    level := 0
    lastCheck := 0
    waiters := []
    nextCount := 0
    wakerHandle := none
    eventLoop := none }

/-- `AsyncLimiter._leak`: drip out capacity for the elapsed time.  The Python
guard `if self._level:` is float truthiness, i.e. `level ≠ 0`. -/
def leak (s : LimiterState) (now : ℚ) : LimiterState :=
  if s.level ≠ 0 then
    { s with
        level := max (s.level - (now - s.lastCheck) * s.ratePerSec) 0
        lastCheck := now }
  else
    { s with lastCheck := now }

/-- `AsyncLimiter.has_capacity(amount)`: leak, then compare; returns the bool
together with the post-leak state (the method mutates `_level`/`_last_check`
through `_leak`). -/
def hasCapacity (s : LimiterState) (now : ℚ) (amount : ℚ) : Bool × LimiterState :=
  (decide ((leak s now).level + amount ≤ s.maxRate), leak s now)

/-- The purge loop of `_wake_next`:
`while heap and heap[0][-1].done(): heappop(heap)` — on the sorted-list model,
drop done entries from the front. -/
def purgeFront : List Waiter → List Waiter
  | [] => []
  | w :: ws => if w.status = FutStatus.pending then w :: ws else purgeFront ws

/-- `AsyncLimiter._wake_next`, one synchronous pass: clear (cancel) the waker
handle, lazily purge done entries from the heap front, then either stop (empty
heap), grant the front waiter (`heappop` + `fut.set_result(None)` — the granted
waiter is returned so the resolution is observable; the re-entrant pass that
`set_result` schedules via `call_soon` is deferred to the next loop turn and is
driven externally in this model), or arm one timer at
`self._last_check + (1 / self._rate_per_sec * needed)`. -/
def wakeNext (s : LimiterState) (now : ℚ) : Option Waiter × LimiterState :=
  match purgeFront s.waiters with
  | [] => (none, { s with wakerHandle := none, waiters := [] })
  | w :: rest =>
    let s1 := leak { s with wakerHandle := none, waiters := w :: rest } now
    if w.amount - s1.maxRate + s1.level ≤ 0 then
      (some w, { s1 with waiters := rest })
    else
      (none, { s1 with
          wakerHandle :=
            some (s1.lastCheck + 1 / s1.ratePerSec * (w.amount - s1.maxRate + s1.level)) })

/-- Outcome of one synchronous pass through `AsyncLimiter.acquire`. -/
inductive AcquireOutcome where
  | error
  | granted
  | suspended
  deriving DecidableEq, Repr

/-- `AsyncLimiter.acquire(amount)` up to its first suspension point: the
`ValueError` guard, one `has_capacity` check, then either
`level += amount; _wake_next()` (immediate grant, no suspension) or
`heappush(...); _wake_next(); await fut` (the caller suspends).  `lid` is the
id of the running loop (`loop.create_future()` ties the future to it); the
`loop = self._loop` line is a pure read when the limiter is already bound to
the live running loop (the affinity guard is `getLoop` below). -/
def acquireOnce (s : LimiterState) (now : ℚ) (amount : ℚ) (lid : ℕ) :
    AcquireOutcome × LimiterState :=
  if s.maxRate < amount then
    (AcquireOutcome.error, s)
  else if (hasCapacity s now amount).1 then
    (AcquireOutcome.granted,
      (wakeNext
        { (hasCapacity s now amount).2 with
            level := (hasCapacity s now amount).2.level + amount } now).2)
  else
    (AcquireOutcome.suspended,
      (wakeNext
        { (hasCapacity s now amount).2 with
            waiters :=
              heappush (hasCapacity s now amount).2.waiters
                ⟨amount, (hasCapacity s now amount).2.nextCount, FutStatus.pending, lid⟩
            nextCount := (hasCapacity s now amount).2.nextCount + 1 } now).2)

/-- The `AsyncLimiter._loop` property (the scheduler-affinity guard): `cur` is
the loop `asyncio.get_running_loop()` would return, `closed l` whether loop `l`
`is_closed()`.  Returns the loop to use, whether the reuse warning was emitted,
and the resulting state. -/
def getLoop (s : LimiterState) (cur : ℕ) (closed : ℕ → Bool) :
    ℕ × Bool × LimiterState :=
  match s.eventLoop with
  | none => (cur, false, { s with eventLoop := some cur })
  | some l =>
    if closed l then
      (cur, true,
        { s with
            eventLoop := some cur
            waiters := s.waiters.filter (fun w => w.loopId == cur) })
    else
      (l, false, s)

/-- The operations that mutate limiter state, for stating whole-run
invariants. -/
inductive Op where
  | leakOp (now : ℚ)
  | hasCapOp (now : ℚ) (amount : ℚ)
  | acquireOp (now : ℚ) (amount : ℚ) (lid : ℕ)
  | wakeOp (now : ℚ)
  | loopOp (cur : ℕ) (closed : ℕ → Bool)

/-- State reached after running a sequence of operations. -/
def run (s : LimiterState) : List Op → LimiterState
  | [] => s
  | Op.leakOp now :: ops => run (leak s now) ops
  | Op.hasCapOp now amount :: ops => run (hasCapacity s now amount).2 ops
  | Op.acquireOp now amount lid :: ops => run (acquireOnce s now amount lid).2 ops
  | Op.wakeOp now :: ops => run (wakeNext s now).2 ops
  | Op.loopOp cur closed :: ops => run (getLoop s cur closed).2.2 ops

/-- The amount an operation feeds into the bucket accounting, if any. -/
def opNonneg : Op → Prop
  | Op.acquireOp _ amount _ => 0 ≤ amount
  | _ => True

/-! ### Basic facts about `leak` -/

theorem leak_lastCheck (s : LimiterState) (now : ℚ) : (leak s now).lastCheck = now := by
  unfold leak; split <;> rfl

theorem leak_waiters (s : LimiterState) (now : ℚ) : (leak s now).waiters = s.waiters := by
  unfold leak; split <;> rfl

theorem leak_wakerHandle (s : LimiterState) (now : ℚ) :
    (leak s now).wakerHandle = s.wakerHandle := by
  unfold leak; split <;> rfl

theorem leak_maxRate (s : LimiterState) (now : ℚ) : (leak s now).maxRate = s.maxRate := by
  unfold leak; split <;> rfl

theorem leak_nextCount (s : LimiterState) (now : ℚ) : (leak s now).nextCount = s.nextCount := by
  unfold leak; split <;> rfl

/-- The post-leak level is never negative, whatever the state: either the level
was zero and is untouched, or it is clamped with `max(…, 0)`. -/
theorem leak_level_nonneg (s : LimiterState) (now : ℚ) : 0 ≤ (leak s now).level := by
  unfold leak
  split
  · exact le_max_right _ _
  · rename_i h
    simp only [ne_eq, not_not] at h
    simp [h]

theorem leak_ratePerSec (s : LimiterState) (now : ℚ) :
    (leak s now).ratePerSec = s.ratePerSec := by
  unfold leak; split <;> rfl

/-- Leaking ignores the waiter list and the waker handle: updating them first
does not change the resulting level. -/
theorem leak_level_waiters (s : LimiterState) (now : ℚ) (L : List Waiter) :
    (leak { s with wakerHandle := none, waiters := L } now).level = (leak s now).level := by
  unfold leak
  split <;> simp_all

/-- The lazy purge is the identity on a heap whose entries are all pending. -/
theorem purgeFront_of_pending (l : List Waiter)
    (h : ∀ w ∈ l, w.status = FutStatus.pending) : purgeFront l = l := by
  cases l with
  | nil => rfl
  | cons w ws => simp [purgeFront, h w (List.mem_cons_self w ws)]

theorem wLE_refl (w : Waiter) : wLE w w := Or.inr ⟨rfl, le_refl _⟩

/-- Behaviour of one `_wake_next` pass when the purged heap is empty. -/
theorem wakeNext_of_purge_nil (s : LimiterState) (now : ℚ)
    (h : purgeFront s.waiters = []) :
    wakeNext s now = (none, { s with wakerHandle := none, waiters := [] }) := by
  simp only [wakeNext, h]

/-- Behaviour of one `_wake_next` pass when the front waiter is admissible:
it is popped and granted, and no timer is armed. -/
theorem wakeNext_grant (s : LimiterState) (now : ℚ) (w : Waiter) (rest : List Waiter)
    (h : purgeFront s.waiters = w :: rest)
    (hneed : w.amount - s.maxRate + (leak s now).level ≤ 0) :
    (wakeNext s now).1 = some w ∧
    (wakeNext s now).2.waiters = rest ∧
    (wakeNext s now).2.wakerHandle = none ∧
    (wakeNext s now).2.level = (leak s now).level := by
  have hlvl := leak_level_waiters s now (w :: rest)
  simp only [wakeNext, h]
  rw [if_pos (by simp only [leak_maxRate, hlvl]; simpa using hneed)]
  refine ⟨rfl, rfl, ?_, hlvl⟩
  simp [leak_wakerHandle]

/-- Behaviour of one `_wake_next` pass when the front waiter still needs
capacity: nothing is granted and exactly one timer is armed, at
`last_check + 1 / rate_per_sec * needed`. -/
theorem wakeNext_arm (s : LimiterState) (now : ℚ) (w : Waiter) (rest : List Waiter)
    (h : purgeFront s.waiters = w :: rest)
    (hneed : 0 < w.amount - s.maxRate + (leak s now).level) :
    (wakeNext s now).1 = none ∧
    (wakeNext s now).2.wakerHandle =
      some (now + 1 / s.ratePerSec * (w.amount - s.maxRate + (leak s now).level)) ∧
    (wakeNext s now).2.level = (leak s now).level := by
  have hlvl := leak_level_waiters s now (w :: rest)
  simp only [wakeNext, h]
  rw [if_neg (by simp only [leak_maxRate, hlvl]; simpa using not_le.mpr hneed)]
  refine ⟨rfl, ?_, hlvl⟩
  simp only [leak_maxRate, leak_ratePerSec, leak_lastCheck, hlvl]

/-! ### Claim theorems -/

/-- C5: `_leak` sets `level = max(level - (now - last_check) * rate_per_sec, 0)`
whenever `level > 0`, and in every case sets `last_check = now` afterward. -/
theorem c5_leak_accounting (s : LimiterState) (now : ℚ) :
    (0 < s.level →
      (leak s now).level = max (s.level - (now - s.lastCheck) * s.ratePerSec) 0) ∧
    (leak s now).lastCheck = now := by
  refine ⟨fun hpos => ?_, leak_lastCheck s now⟩
  unfold leak
  simp [ne_of_gt hpos]

/-- Witness for C5 at a concrete state with positive level. -/
theorem c5_leak_accounting_witness :
    (0 < ({ mkLimiter 3 3 with level := 2, lastCheck := 1 } : LimiterState).level) ∧
    (leak { mkLimiter 3 3 with level := 2, lastCheck := 1 } 5).level =
      max (2 - (5 - 1) * (({ mkLimiter 3 3 with level := 2, lastCheck := 1 } :
        LimiterState)).ratePerSec) 0 ∧
    (leak { mkLimiter 3 3 with level := 2, lastCheck := 1 } 5).lastCheck = 5 :=
  ⟨by norm_num [mkLimiter],
   (c5_leak_accounting { mkLimiter 3 3 with level := 2, lastCheck := 1 } 5).1
     (by norm_num [mkLimiter]),
   (c5_leak_accounting { mkLimiter 3 3 with level := 2, lastCheck := 1 } 5).2⟩

/-- C6: `has_capacity` first runs the leak and then returns
`level + amount <= max_rate`; it never mutates the waiter structure nor arms or
disarms any timer. -/
theorem c6_hasCapacity_leak_then_compare (s : LimiterState) (now amount : ℚ) :
    hasCapacity s now amount =
      (decide ((leak s now).level + amount ≤ s.maxRate), leak s now) ∧
    (hasCapacity s now amount).2.waiters = s.waiters ∧
    (hasCapacity s now amount).2.wakerHandle = s.wakerHandle :=
  ⟨rfl, leak_waiters s now, leak_wakerHandle s now⟩

/-- C3: `acquire(amount)` with `amount > max_rate` fails immediately with
`ValueError`: the outcome is the error, no suspension happens, and the state
is returned entirely unchanged. -/
theorem c3_acquire_rejects_oversized (s : LimiterState) (now amount : ℚ) (lid : ℕ)
    (h : s.maxRate < amount) :
    acquireOnce s now amount lid = (AcquireOutcome.error, s) := by
  simp [acquireOnce, h]

/-- Witness for C3: a request for 4 on a limiter with `max_rate = 3`. -/
theorem c3_acquire_rejects_oversized_witness :
    acquireOnce (mkLimiter 3 3) 0 4 0 = (AcquireOutcome.error, mkLimiter 3 3) :=
  c3_acquire_rejects_oversized (mkLimiter 3 3) 0 4 0 (by norm_num [mkLimiter])

/-- An oversized request can never pass the capacity check, because the
post-leak level is never negative. -/
theorem hasCapacity_oversized (s : LimiterState) (now amount : ℚ)
    (h : s.maxRate < amount) :
    (hasCapacity s now amount).1 = false := by
  have hl := leak_level_nonneg s now
  have : ¬((leak s now).level + amount ≤ s.maxRate) := by intro hle; linarith
  simpa [hasCapacity] using this

/-- C8 counterexample: `has_capacity(4)` on a limiter with `max_rate = 3` does
not fail with an invalid-amount error — it returns `false` — and it *does*
mutate the state (the leak advances `last_check` and drains `level`),
contradicting the claim's "fails synchronously … no state mutated". -/
theorem c8_counterexample :
    (hasCapacity { mkLimiter 3 3 with level := 2 } 1 4).1 = false ∧
    (hasCapacity { mkLimiter 3 3 with level := 2 } 1 4).2 ≠
      { mkLimiter 3 3 with level := 2 } := by
  constructor
  · exact hasCapacity_oversized _ 1 4 (by norm_num [mkLimiter])
  · intro h
    have h1 : (hasCapacity { mkLimiter 3 3 with level := 2 } 1 4).2.lastCheck = 1 :=
      leak_lastCheck _ _
    rw [h] at h1
    norm_num [mkLimiter] at h1

/-- C8 amended: for `amount > max_rate`, `has_capacity` returns `false`
(raising nothing — only `acquire` validates the amount); like every call it
runs the leak, which may mutate `level`/`last_check`, but it leaves the waiter
structure and the timer handle untouched and enters no suspension. -/
theorem c8_hasCapacity_oversized_false (s : LimiterState) (now amount : ℚ)
    (h : s.maxRate < amount) :
    (hasCapacity s now amount).1 = false ∧
    (hasCapacity s now amount).2.waiters = s.waiters ∧
    (hasCapacity s now amount).2.wakerHandle = s.wakerHandle :=
  ⟨hasCapacity_oversized s now amount h, leak_waiters s now, leak_wakerHandle s now⟩

/-- Witness for C8's amended theorem at `max_rate = 3`, `amount = 4`. -/
theorem c8_hasCapacity_oversized_false_witness :
    (hasCapacity (mkLimiter 3 3) 0 4).1 = false ∧
    (hasCapacity (mkLimiter 3 3) 0 4).2.waiters = (mkLimiter 3 3).waiters ∧
    (hasCapacity (mkLimiter 3 3) 0 4).2.wakerHandle = (mkLimiter 3 3).wakerHandle :=
  c8_hasCapacity_oversized_false (mkLimiter 3 3) 0 4 (by norm_num [mkLimiter])

/-- C4: `has_capacity(amount)` at time `now` is true exactly when an
`acquire(amount)` issued at `now` succeeds immediately (outcome `granted`,
no suspension); the oversized-amount case cannot break the equivalence since
the post-leak level is never negative. -/
theorem c4_hasCapacity_iff_immediate_grant (s : LimiterState) (now amount : ℚ) (lid : ℕ) :
    (hasCapacity s now amount).1 = true ↔
      (acquireOnce s now amount lid).1 = AcquireOutcome.granted := by
  by_cases hgt : s.maxRate < amount
  · have hfalse := hasCapacity_oversized s now amount hgt
    simp [acquireOnce, hgt, hfalse]
  · cases hc : (hasCapacity s now amount).1 <;> simp [acquireOnce, hgt, hc]

/-- C2: a scheduling pass never keeps the previously armed timer (cancelling
it first — the result is the same as if no timer had been armed), and it arms
a timer only when the front waiter is not yet admissible, i.e. when
`needed = amount - max_rate + level > 0`, with deadline exactly
`last_check + needed / rate_per_sec` (the post-leak `last_check`, i.e. `now`);
the `Option` handle field carries at most one timer. -/
theorem c2_single_timer (s : LimiterState) (now : ℚ) :
    wakeNext s now = wakeNext { s with wakerHandle := none } now ∧
    (∀ d : ℚ, (wakeNext s now).2.wakerHandle = some d →
      ∃ w rest, purgeFront s.waiters = w :: rest ∧
        0 < w.amount - s.maxRate + (leak s now).level ∧
        d = now + (w.amount - s.maxRate + (leak s now).level) / s.ratePerSec) := by
  constructor
  · rfl
  · intro d hd
    cases hp : purgeFront s.waiters with
    | nil =>
      rw [wakeNext_of_purge_nil s now hp] at hd
      cases hd
    | cons w rest =>
      by_cases hneed : w.amount - s.maxRate + (leak s now).level ≤ 0
      · rw [(wakeNext_grant s now w rest hp hneed).2.2.1] at hd
        cases hd
      · have harm := (wakeNext_arm s now w rest hp (not_le.mp hneed)).2.1
        rw [harm] at hd
        refine ⟨w, rest, rfl, not_le.mp hneed, ?_⟩
        have hde : d = now + 1 / s.ratePerSec * (w.amount - s.maxRate + (leak s now).level) :=
          (Option.some.inj hd).symm
        rw [hde, one_div_mul_eq_div]

/-- Concrete state for the C2 witness: full bucket, one pending waiter. -/
def exC2 : LimiterState :=
  { mkLimiter 3 3 with level := 3, waiters := [⟨3, 0, FutStatus.pending, 0⟩] }

/-- Witness for C2: with a full bucket and a pending waiter for 3, the pass
arms the timer for `needed = 3` at deadline `0 + 3 / 1 = 3`. -/
theorem c2_single_timer_witness :
    ∃ w rest, purgeFront exC2.waiters = w :: rest ∧
      0 < w.amount - exC2.maxRate + (leak exC2 0).level ∧
      (3 : ℚ) = 0 + (w.amount - exC2.maxRate + (leak exC2 0).level) / exC2.ratePerSec :=
  (c2_single_timer exC2 0).2 3 (by
    norm_num [wakeNext, purgeFront, leak, exC2, mkLimiter])

/-- C1: the waiter structure is ordered primarily by requested amount
ascending, with enqueue sequence ascending as tie-break (`heappush` preserves
that order); a scheduling pass only ever grants the front — a minimum — entry;
consequently, when a waiter `w2` enqueued after a waiter `w1` requests a
smaller amount and enough capacity has drained for `w2`, the pass grants `w2`
while the earlier, larger `w1` stays queued. -/
theorem c1_priority_policy :
    (∀ (l : List Waiter) (w : Waiter),
      List.Sorted wLE l → List.Sorted wLE (heappush l w)) ∧
    (∀ (s : LimiterState) (now : ℚ) (g : Waiter),
      List.Sorted wLE s.waiters →
      (∀ w ∈ s.waiters, w.status = FutStatus.pending) →
      (wakeNext s now).1 = some g →
      g ∈ s.waiters ∧ ∀ w ∈ s.waiters, wLE g w) ∧
    (∀ (s : LimiterState) (now : ℚ) (w1 w2 : Waiter) (rest : List Waiter),
      s.waiters = w2 :: w1 :: rest →
      List.Sorted wLE s.waiters →
      (∀ w ∈ s.waiters, w.status = FutStatus.pending) →
      w1.seq < w2.seq → w2.amount < w1.amount →
      w2.amount - s.maxRate + (leak s now).level ≤ 0 →
      (wakeNext s now).1 = some w2 ∧ w1 ∈ (wakeNext s now).2.waiters) := by
  refine ⟨fun l w hs => hs.orderedInsert w l, ?_, ?_⟩
  · intro s now g hs hp hg
    have hpu : purgeFront s.waiters = s.waiters := purgeFront_of_pending _ hp
    cases hw : s.waiters with
    | nil =>
      rw [wakeNext_of_purge_nil s now (hpu.trans hw)] at hg
      cases hg
    | cons w rest =>
      by_cases hneed : w.amount - s.maxRate + (leak s now).level ≤ 0
      · rw [(wakeNext_grant s now w rest (hpu.trans hw) hneed).1] at hg
        have hgw : w = g := Option.some.inj hg
        subst hgw
        rw [hw] at hs
        refine ⟨hw ▸ List.mem_cons_self w rest, ?_⟩
        intro w' hw'
        rcases List.mem_cons.mp hw' with he | hm
        · exact he ▸ wLE_refl w
        · exact List.rel_of_sorted_cons hs w' hm
      · rw [(wakeNext_arm s now w rest (hpu.trans hw) (not_le.mp hneed)).1] at hg
        cases hg
  · intro s now w1 w2 rest hw hs hp hseq hamt hneed
    have hpc : purgeFront s.waiters = w2 :: (w1 :: rest) :=
      (purgeFront_of_pending _ hp).trans hw
    have hgr := wakeNext_grant s now w2 (w1 :: rest) hpc hneed
    exact ⟨hgr.1, by rw [hgr.2.1]; exact List.mem_cons_self w1 rest⟩

/-- Concrete state for the C1 witness: drained bucket, an earlier waiter for 3
(sequence 1) and a later waiter for 2 (sequence 5), heap-ordered by amount. -/
def exC1 : LimiterState :=
  { mkLimiter 3 3 with
      waiters := [⟨2, 5, FutStatus.pending, 0⟩, ⟨3, 1, FutStatus.pending, 0⟩] }

/-- Witness for C1: the later-enqueued waiter for the smaller amount 2 is
granted while the earlier waiter for 3 stays queued. -/
theorem c1_priority_policy_witness :
    (wakeNext exC1 0).1 = some ⟨2, 5, FutStatus.pending, 0⟩ ∧
    (⟨3, 1, FutStatus.pending, 0⟩ : Waiter) ∈ (wakeNext exC1 0).2.waiters :=
  c1_priority_policy.2.2 exC1 0 ⟨3, 1, FutStatus.pending, 0⟩ ⟨2, 5, FutStatus.pending, 0⟩ []
    rfl
    (by simp [exC1, mkLimiter, List.sorted_cons, wLE]; norm_num)
    (by simp [exC1, mkLimiter])
    (by norm_num)
    (by norm_num)
    (by norm_num [leak, exC1, mkLimiter])

/-- A scheduling pass never drives the level negative: it either leaves the
level alone (empty purged heap) or re-leaks it. -/
theorem wakeNext_level_nonneg (s : LimiterState) (now : ℚ) (h : 0 ≤ s.level) :
    0 ≤ (wakeNext s now).2.level := by
  cases hp : purgeFront s.waiters with
  | nil =>
    rw [wakeNext_of_purge_nil s now hp]
    exact h
  | cons w rest =>
    by_cases hneed : w.amount - s.maxRate + (leak s now).level ≤ 0
    · rw [(wakeNext_grant s now w rest hp hneed).2.2.2]
      exact leak_level_nonneg s now
    · rw [(wakeNext_arm s now w rest hp (not_le.mp hneed)).2.2]
      exact leak_level_nonneg s now

/-- One `acquire` pass keeps the level non-negative when the requested amount
is non-negative. -/
theorem acquireOnce_level_nonneg (s : LimiterState) (now amount : ℚ) (lid : ℕ)
    (h : 0 ≤ s.level) (ha : 0 ≤ amount) :
    0 ≤ (acquireOnce s now amount lid).2.level := by
  unfold acquireOnce
  split
  · exact h
  · split
    · apply wakeNext_level_nonneg
      have := leak_level_nonneg s now
      simp only [hasCapacity]
      linarith
    · apply wakeNext_level_nonneg
      simpa [hasCapacity] using leak_level_nonneg s now

/-- The affinity guard never touches the bucket level. -/
theorem getLoop_level (s : LimiterState) (cur : ℕ) (closed : ℕ → Bool) :
    (getLoop s cur closed).2.2.level = s.level := by
  unfold getLoop
  split
  · rfl
  · split <;> rfl

/-- C7 counterexample: the claim quantifies over *every* sequence of
operations, but `acquire` does not validate the lower bound of `amount`
(see C10): from a fresh limiter, `acquire(-1)` is granted and drives the
level to `-1`, which is negative. -/
theorem c7_counterexample :
    (run (mkLimiter 3 3) [Op.acquireOp 0 (-1) 0]).level < 0 := by
  show (acquireOnce (mkLimiter 3 3) 0 (-1) 0).2.level < 0
  norm_num [acquireOnce, hasCapacity, leak, mkLimiter, wakeNext, purgeFront]

/-- C7 amended: over every sequence of operations whose acquired amounts are
non-negative, the level is never negative — decay clamps it at zero, and
admission only adds the (non-negative) amount. -/
theorem c7_level_nonneg (ops : List Op) (s : LimiterState)
    (h : 0 ≤ s.level) (hops : ∀ op ∈ ops, opNonneg op) :
    0 ≤ (run s ops).level := by
  induction ops generalizing s with
  | nil => exact h
  | cons op rest ih =>
    have hop := hops op (List.mem_cons_self op rest)
    have hrest : ∀ o ∈ rest, opNonneg o := fun o ho => hops o (List.mem_cons_of_mem _ ho)
    cases op with
    | leakOp now => exact ih _ (leak_level_nonneg s now) hrest
    | hasCapOp now amount =>
      exact ih _ (by simpa [hasCapacity] using leak_level_nonneg s now) hrest
    | acquireOp now amount lid =>
      exact ih _ (acquireOnce_level_nonneg s now amount lid h hop) hrest
    | wakeOp now => exact ih _ (wakeNext_level_nonneg s now h) hrest
    | loopOp cur closed => exact ih _ (by rw [getLoop_level]; exact h) hrest

/-- Witness for the amended C7 at a concrete run: an admission, a decay and a
scheduling pass from a fresh limiter keep the level non-negative. -/
theorem c7_level_nonneg_witness :
    0 ≤ (run (mkLimiter 3 3) [Op.acquireOp 0 1 0, Op.leakOp 2, Op.wakeOp 3]).level :=
  c7_level_nonneg [Op.acquireOp 0 1 0, Op.leakOp 2, Op.wakeOp 3] (mkLimiter 3 3)
    (by norm_num [mkLimiter]) (by norm_num [opNonneg])

/-- C9: invoked while bound to a closed (torn-down) loop, the guard rebinds to
the running loop, keeps exactly the waiters whose future belongs to the new
loop — so it discards exactly the stale loop's waiters when every waiter
belongs to one of the two — emits the reuse warning, and the call itself
completes, leaving the bucket accounting untouched. -/
theorem c9_affinity_guard (s : LimiterState) (cur : ℕ) (closed : ℕ → Bool) (l : ℕ)
    (hb : s.eventLoop = some l) (hcl : closed l = true) (hcur : closed cur = false)
    (hw : ∀ w ∈ s.waiters, w.loopId = l ∨ w.loopId = cur) :
    (getLoop s cur closed).1 = cur ∧
    (getLoop s cur closed).2.1 = true ∧
    (getLoop s cur closed).2.2.eventLoop = some cur ∧
    (getLoop s cur closed).2.2.waiters = s.waiters.filter (fun w => w.loopId == cur) ∧
    (∀ w ∈ s.waiters, (w ∈ (getLoop s cur closed).2.2.waiters ↔ ¬w.loopId = l)) ∧
    (∀ w ∈ (getLoop s cur closed).2.2.waiters, w ∈ s.waiters) ∧
    (getLoop s cur closed).2.2.level = s.level ∧
    (getLoop s cur closed).2.2.lastCheck = s.lastCheck := by
  have hne : l ≠ cur := fun he => by rw [he, hcur] at hcl; cases hcl
  have hg : getLoop s cur closed =
      (cur, true,
        { s with
            eventLoop := some cur
            waiters := s.waiters.filter (fun w => w.loopId == cur) }) := by
    unfold getLoop
    rw [hb]
    simp [hcl]
  rw [hg]
  refine ⟨rfl, rfl, rfl, rfl, ?_, ?_, rfl, rfl⟩
  · intro w hwmem
    simp only [List.mem_filter, beq_iff_eq]
    constructor
    · rintro ⟨-, hc⟩ hl
      exact hne (by rw [← hl, hc])
    · intro hnl
      exact ⟨hwmem, (hw w hwmem).resolve_left hnl⟩
  · intro w hwmem
    exact (List.mem_filter.mp hwmem).1

/-- Concrete state for the C9 witness: bound to loop 1 (now closed), one
waiter on loop 1 and one on loop 2 (the running loop). -/
def exC9 : LimiterState :=
  { mkLimiter 3 3 with
      eventLoop := some 1
      waiters := [⟨1, 0, FutStatus.pending, 1⟩, ⟨2, 1, FutStatus.pending, 2⟩] }

/-- Witness for C9: with loop 1 closed and loop 2 running, the guard rebinds
to loop 2, keeps only the loop-2 waiter, and reports the warning. -/
theorem c9_affinity_guard_witness :
    (getLoop exC9 2 (fun n => n == 1)).1 = 2 ∧
    (getLoop exC9 2 (fun n => n == 1)).2.1 = true ∧
    (getLoop exC9 2 (fun n => n == 1)).2.2.eventLoop = some 2 ∧
    (getLoop exC9 2 (fun n => n == 1)).2.2.waiters =
      exC9.waiters.filter (fun w => w.loopId == 2) ∧
    (∀ w ∈ exC9.waiters,
      (w ∈ (getLoop exC9 2 (fun n => n == 1)).2.2.waiters ↔ ¬w.loopId = 1)) ∧
    (∀ w ∈ (getLoop exC9 2 (fun n => n == 1)).2.2.waiters, w ∈ exC9.waiters) ∧
    (getLoop exC9 2 (fun n => n == 1)).2.2.level = exC9.level ∧
    (getLoop exC9 2 (fun n => n == 1)).2.2.lastCheck = exC9.lastCheck :=
  c9_affinity_guard exC9 2 (fun n => n == 1) 1 rfl rfl rfl
    (by simp [exC9, mkLimiter])

/-- C10: `acquire` validates only the upper bound of `amount`: any
`amount ≤ max_rate` — zero and negative included — is never rejected with the
invalid-amount error; whenever the post-leak `level + amount ≤ max_rate` the
request is admitted immediately, the amount is added to the level (stated here
with no waiters pending, where the final level is exactly the post-leak level
plus `amount`), and a negative amount therefore decreases the level. -/
theorem c10_no_lower_bound_check (s : LimiterState) (now amount : ℚ) (lid : ℕ)
    (h : amount ≤ s.maxRate) :
    (acquireOnce s now amount lid).1 ≠ AcquireOutcome.error ∧
    ((leak s now).level + amount ≤ s.maxRate →
      (acquireOnce s now amount lid).1 = AcquireOutcome.granted) ∧
    (s.waiters = [] → (leak s now).level + amount ≤ s.maxRate →
      (acquireOnce s now amount lid).2.level = (leak s now).level + amount) ∧
    (amount < 0 → s.waiters = [] → (leak s now).level + amount ≤ s.maxRate →
      (acquireOnce s now amount lid).2.level < (leak s now).level) := by
  have hnlt : ¬s.maxRate < amount := not_lt.mpr h
  refine ⟨?_, ?_, ?_, ?_⟩
  · cases hc : (hasCapacity s now amount).1 <;> simp [acquireOnce, hnlt, hc]
  · intro hcap
    have hc : (hasCapacity s now amount).1 = true := by
      simp [hasCapacity, hcap]
    simp [acquireOnce, hnlt, hc]
  · intro hnil hcap
    have hc : (hasCapacity s now amount).1 = true := by
      simp [hasCapacity, hcap]
    have hpn : purgeFront
        ({ (hasCapacity s now amount).2 with
            level := (hasCapacity s now amount).2.level + amount } : LimiterState).waiters
        = [] := by
      simp [hasCapacity, leak_waiters, hnil, purgeFront]
    simp only [acquireOnce, hnlt, if_false, hc, if_true]
    rw [wakeNext_of_purge_nil _ now hpn]
    simp [hasCapacity]
  · intro hneg hnil hcap
    have hc : (hasCapacity s now amount).1 = true := by
      simp [hasCapacity, hcap]
    have hpn : purgeFront
        ({ (hasCapacity s now amount).2 with
            level := (hasCapacity s now amount).2.level + amount } : LimiterState).waiters
        = [] := by
      simp [hasCapacity, leak_waiters, hnil, purgeFront]
    simp only [acquireOnce, hnlt, if_false, hc, if_true]
    rw [wakeNext_of_purge_nil _ now hpn]
    simp only [hasCapacity]
    linarith

/-- Concrete state for the C10 counterexample: level `1/2`, one pending
waiter. -/
def exC10 : LimiterState :=
  { mkLimiter 3 3 with level := 1 / 2, waiters := [⟨3, 0, FutStatus.pending, 0⟩] }

/-- C10 counterexample: with level `1/2` and a pending waiter, `acquire(-1)`
is granted, but the final level is `0`, not `level + amount = -1/2` — the
scheduling pass run after the increment re-leaks and clamps the negative level
to zero, so the level does *not* decrease by the amount's magnitude. -/
theorem c10_counterexample :
    (acquireOnce exC10 0 (-1) 0).1 = AcquireOutcome.granted ∧
    exC10.level + (-1) = -(1 / 2 : ℚ) ∧
    (acquireOnce exC10 0 (-1) 0).2.level = 0 := by
  refine ⟨?_, by norm_num [exC10, mkLimiter], ?_⟩ <;>
    norm_num [acquireOnce, hasCapacity, leak, exC10, mkLimiter, wakeNext, purgeFront,
      max_def]

/-- Witness for C10: a fresh limiter with `max_rate = 3` grants `acquire(-1)`
immediately, leaving the level at `-1`, strictly below the previous level 0. -/
theorem c10_no_lower_bound_check_witness :
    (acquireOnce (mkLimiter 3 3) 0 (-1) 0).1 ≠ AcquireOutcome.error ∧
    (acquireOnce (mkLimiter 3 3) 0 (-1) 0).1 = AcquireOutcome.granted ∧
    (acquireOnce (mkLimiter 3 3) 0 (-1) 0).2.level = (leak (mkLimiter 3 3) 0).level + (-1) ∧
    (acquireOnce (mkLimiter 3 3) 0 (-1) 0).2.level < (leak (mkLimiter 3 3) 0).level :=
  have hthm := c10_no_lower_bound_check (mkLimiter 3 3) 0 (-1) 0 (by norm_num [mkLimiter])
  ⟨hthm.1,
   hthm.2.1 (by norm_num [leak, mkLimiter]),
   hthm.2.2.1 rfl (by norm_num [leak, mkLimiter]),
   hthm.2.2.2 (by norm_num) rfl (by norm_num [leak, mkLimiter])⟩

end Aiolimiter
